import Mathlib

/-
Verification of the PdS-SpikingNN spiking-neural-network simulator.

The development shallowly embeds the Rust sources:
  * `src/nn/mod.rs`      — the `Spike` ordering utility, the network value `NN`,
                           and the concurrent solver `NN::solve` (entry layer run
                           inline, later layers pipelined through `LayerManager`s);
  * `src/nn/solver_v1.rs` — the single-threaded reference solver `Solver::solve`;
  * `src/nn/model/lif.rs` — the leaky-integrate-and-fire fixture.

Conventions of the embedding:
  * `u128` timestamps become `Nat` (the solvers only copy and compare them;
    `u128::MAX` is the concrete value `2 ^ 128 - 1`);
  * `f64` weights and activations become `ℚ`; `0.5` is written `mkRat 1 2`;
  * the neuron model, generic in the Rust code (`M: Model`), is an arbitrary
    state type `S` together with a transition function
    `handle : S → ℚ → ℕ → S × ℚ` returning the new state and the activation;
  * a Rust panic (out-of-bounds index, `unwrap` of `None`) is modelled by an
    `Option` result of `none`;
  * the concurrent pipeline is modelled by its deterministic event semantics:
    each stage maps the ordered event stream produced by the previous stage to
    its own ordered event stream.  The entry-layer loop, the worker body and the
    final collector are transcribed from `mod.rs`; the `LayerManager` itself
    lives outside the given sources and is modelled from the spec (see
    `layerStage`);
  * the entry-layer loop of `NN::solve` re-enqueues an intra-layer feedback
    vector every time a pass fires, so it is not structurally terminating for
    arbitrary models; the feedback iteration is given a `fuel` bound, and a run
    whose feedback chains all quiesce within `fuel` passes is unaffected by it.
-/

namespace SpikingNN

/-- Spike from `mod.rs`: `(ts: u128, neuron_id: usize)`, with the derived
lexicographic order `(ts, neuron_id)`. -/
structure Spike where
  ts : Nat
  neuron_id : Nat
deriving DecidableEq, Repr

/-- The derived `Ord` of `Spike`: lexicographic on `(ts, neuron_id)`, as a
boolean `≤` used by `sort`. -/
def spikeLe (a b : Spike) : Bool :=
  decide (a.ts < b.ts) || (decide (a.ts = b.ts) && decide (a.neuron_id ≤ b.neuron_id))

/-- `Spike::spike_vec_for`: build the spike list of one neuron from a (possibly
unordered) timestamp list, then sort ascending. -/
def spike_vec_for (neuron_id : Nat) (ts_vec : List Nat) : List Spike :=
  ((ts_vec.map (fun ts => Spike.mk ts neuron_id)).mergeSort spikeLe)

/-- `Spike::create_terminal_vec`: concatenate the per-neuron spike lists and
sort the result ascending (Rust `Vec::sort`, a stable merge sort by the derived
`Ord`). -/
def create_terminal_vec (spikes : List (List Spike)) : List Spike :=
  (spikes.flatten).mergeSort spikeLe

theorem spikeLe_trans (a b c : Spike) (hab : spikeLe a b = true) (hbc : spikeLe b c = true) :
    spikeLe a c = true := by
  simp only [spikeLe, Bool.or_eq_true, Bool.and_eq_true, decide_eq_true_eq] at *
  omega

theorem spikeLe_total (a b : Spike) : (spikeLe a b || spikeLe b a) = true := by
  simp only [spikeLe, Bool.or_eq_true, Bool.and_eq_true, decide_eq_true_eq]
  omega

theorem spikeLe_ts_le (a b : Spike) (h : spikeLe a b = true) : a.ts ≤ b.ts := by
  simp only [spikeLe, Bool.or_eq_true, Bool.and_eq_true, decide_eq_true_eq] at h
  omega

/-- C6. For every set of per-neuron spike lists, including empty ones,
`create_terminal_vec` returns a sequence sorted ascending by timestamp that
contains exactly the multiset union of its inputs (a permutation of their
concatenation, with no deduplication); when all the inputs are empty the
output is empty. -/
theorem create_terminal_vec_sorted_union (spikes : List (List Spike)) (n : Nat) :
    List.Pairwise (fun a b => a.ts ≤ b.ts) (create_terminal_vec spikes)
    ∧ (create_terminal_vec spikes).Perm spikes.flatten
    ∧ create_terminal_vec (List.replicate n []) = [] := by
  refine ⟨?_, ?_, ?_⟩
  · exact (List.sorted_mergeSort spikeLe_trans spikeLe_total spikes.flatten).imp
      (fun h => spikeLe_ts_le _ _ h)
  · exact List.mergeSort_perm spikes.flatten spikeLe
  · have h : (List.replicate n ([] : List Spike)).flatten = [] := by
      induction n with
      | zero => rfl
      | succ k ih => simp [List.replicate_succ, ih]
    simp [create_terminal_vec, h]

/-! ## The network value (`NN<M>` from `mod.rs`)

`mod.rs` stores the entry-layer scalar input weights, the layers (each a pair
of the neuron list and the square intra-layer weight matrix), and the list of
inter-layer synapse matrices.  A neuron is represented by its initial solver
state (the Rust code derives a fresh `M::SolverVars` from each `M::Neuron` at
the start of every solve).  `solver_v1.rs` is written against an older `NN`
layout in which each layer carries its own `input_weights` matrix; for layer 0
that matrix is the diagonal matrix of the entry input weights (compare the
commented-out `apply_spike_to_input_layer_neuron`, which reads
`layers[0].input_weights` as "1 times the corresponding input_weight"), and for
layer `i > 0` it is the synapse matrix from layer `i-1`.  Matrices are lists of
rows. -/

/-- Pointwise sum of two row vectors, the shorter padded with zeros. -/
def addVec : List ℚ → List ℚ → List ℚ
  | [], ys => ys
  | xs, [] => xs
  | x :: xs, y :: ys => (x + y) :: addVec xs ys

/-- Row-vector–matrix product `v ⬝ m` (ndarray `dot` of a `1×n` array with an
`n×m` matrix): the sum of the rows of `m` scaled by the entries of `v`. -/
def rowVecMul (v : List ℚ) (m : List (List ℚ)) : List ℚ :=
  (v.zip m).foldr (fun p acc => addVec (p.2.map (p.1 * ·)) acc) []

/-- A `1×n` vector that is zero everywhere except for value `x` at `nid`
(`Array2::from_shape_fn((1, n), |(_, i)| if i == neuron_id { output } else { 0.0 })`). -/
def oneHot (n nid : Nat) (x : ℚ) : List ℚ :=
  (List.range n).map (fun i => if i = nid then x else 0)

/-- The diagonal matrix of the entry-layer input weights (the first
`input_weights` matrix of the `NN` layout consumed by `solver_v1.rs`). -/
def diagMat (w : List ℚ) : List (List ℚ) :=
  (List.range w.length).map (fun i => (List.range w.length).map
    (fun j => if i = j then w.getD i 0 else 0))

/-- A layer: the neurons (as their initial solver states) and the square
intra-layer weight matrix. -/
structure NLayer (S : Type) where
  neurons : List S
  intra_weights : List (List ℚ)
deriving DecidableEq

/-- The network value `NN<M>` from `mod.rs`. -/
structure SNNet (S : Type) where
  input_weights : List ℚ
  layers : List (NLayer S)
  synapses : List (List (List ℚ))
deriving DecidableEq

/-- One barrier pass of a layer: run `handle_spike` on every neuron with its
entry of the weighted-input vector (missing entries read as `0`), returning the
new states and the activation outputs. -/
def stepAll {S : Type} (handle : S → ℚ → ℕ → S × ℚ) (ts : ℕ) :
    List S → List ℚ → List S × List ℚ
  | [], _ => ([], [])
  | s :: ss, arr =>
    let r := handle s (arr.headD 0) ts
    let rest := stepAll handle ts ss arr.tail
    (r.1 :: rest.1, r.2 :: rest.2)

/-- The firing test of the concurrent solver, `output > 0.5`
(`mod.rs` lines 155, 183, 199 and 219). -/
def fires (x : ℚ) : Bool := decide (mkRat 1 2 < x)

/-- The intra-layer feedback loop of the entry layer (`mod.rs` 175-190):
process the pending feedback vector at the current timestamp; if any neuron
fired, send the full activation vector downstream and enqueue the next
feedback vector `output ⬝ intra` at the same timestamp, repeating until a pass
with no firing.  `fuel` bounds the number of passes (the Rust loop itself has
no bound and diverges on a model that keeps firing). -/
def feedbackChain {S : Type} (handle : S → ℚ → ℕ → S × ℚ) (intra : List (List ℚ)) :
    ℕ → List S → List ℚ → ℕ → List S × List (ℕ × List ℚ)
  | 0, states, _, _ => (states, [])
  | fuel + 1, states, arr, ts =>
    let r := stepAll handle ts states arr
    if (r.2.any fires) = true then
      let next := feedbackChain handle intra fuel r.1 (rowVecMul r.2 intra) ts
      (next.1, (ts, r.2) :: next.2)
    else (r.1, [])

/-- The entry-layer loop of `NN::solve` (`mod.rs` 162-209): consume the input
spikes one at a time; an in-range spike to neuron `nid` applies
`handle_spike(layer[nid], input_weights[nid], ts)`; on firing, the one-hot
activation vector is sent downstream and the feedback chain for row `nid` of
the intra matrix runs at the same timestamp before the next external spike.
An out-of-range `neuron_id` indexes `layer[neuron_id]` / `input_weights[neuron_id]`
and panics (`none`).  Returns the final states and the emitted event stream. -/
def entryLoop {S : Type} (handle : S → ℚ → ℕ → S × ℚ) (iw : List ℚ)
    (intra : List (List ℚ)) (fuel : ℕ) :
    List S → List Spike → Option (List S × List (ℕ × List ℚ))
  | states, [] => some (states, [])
  | states, sp :: rest =>
    if h : sp.neuron_id < states.length ∧ sp.neuron_id < iw.length then
      let r := handle (states.get ⟨sp.neuron_id, h.1⟩) (iw.getD sp.neuron_id 0) sp.ts
      let states1 := states.set sp.neuron_id r.1
      if fires r.2 then
        let ev := (sp.ts, oneHot states.length sp.neuron_id r.2)
        let fb := (intra.getD sp.neuron_id []).map (· * r.2)
        let c := feedbackChain handle intra fuel states1 fb sp.ts
        (entryLoop handle iw intra fuel c.1 rest).map
          (fun p => (p.1, ev :: (c.2 ++ p.2)))
      else entryLoop handle iw intra fuel states1 rest
    else none

/-- Modelled from the spec: the `LayerManager` of `sync` (not among the given
sources) drives one non-entry layer.  Per §4.3 of the spec, for each incoming
`(timestamp, previous-layer output)` event the layer computes the weighted
input through the inter-layer matrix, runs every neuron to the barrier, always
forwards the assembled sparse fired-vector (activation where fired, `0`
elsewhere), and, if any neuron fired, applies exactly one intra-layer feedback
pass at the same timestamp, forwarding that pass's fired-vector as well. -/
def layerStage {S : Type} (handle : S → ℚ → ℕ → S × ℚ) (inter intra : List (List ℚ)) :
    List S → List (ℕ × List ℚ) → List S × List (ℕ × List ℚ)
  | states, [] => (states, [])
  | states, (ts, prev) :: evs =>
    let r := stepAll handle ts states (rowVecMul prev inter)
    let spars := r.2.map (fun o => if fires o then o else 0)
    if (r.2.any fires) = true then
      let r2 := stepAll handle ts r.1 (rowVecMul spars intra)
      let spars2 := r2.2.map (fun o => if fires o then o else 0)
      let next := layerStage handle inter intra r2.1 evs
      (next.1, (ts, spars) :: (ts, spars2) :: next.2)
    else
      let next := layerStage handle inter intra r.1 evs
      (next.1, (ts, spars) :: next.2)

/-- The output collector of `NN::solve` (`mod.rs` 216-221): expand each
`(ts, activation vector)` event of the last stage into `Spike`s for the
neurons whose activation exceeded `0.5`. -/
def collect (evs : List (ℕ × List ℚ)) : List Spike :=
  evs.flatMap (fun ev =>
    ev.2.enum.filterMap (fun p => if fires p.2 then some (Spike.mk ev.1 p.1) else none))

/-- `NN::solve` (`mod.rs` 124-222): run the entry layer inline on the input
spikes, push its event stream through one pipelined stage per remaining layer
(layer `i` wired to synapse matrix `i-1`), and collect the last stream.
`self.layers[0]` on a layerless network panics (`none`). -/
def nnSolve {S : Type} (handle : S → ℚ → ℕ → S × ℚ) (net : SNNet S) (fuel : ℕ)
    (spikes : List Spike) : Option (List Spike) :=
  match net.layers with
  | [] => none
  | l0 :: rest =>
    (entryLoop handle net.input_weights l0.intra_weights fuel l0.neurons spikes).map
      (fun p => collect (((rest.zip net.synapses).foldl
        (fun evs lw => (layerStage handle lw.2 lw.1.intra_weights lw.1.neurons evs).2)
        p.2)))

/-- Modelled from the spec: the entry-layer loop as the spec's words describe
it (§4.3/§4.4) — on firing, emit the event downstream and apply the
intra-layer feedback as additional input at the same timestamp exactly once
(a single pass, never iterated), emitting the pass's activation vector if it
fired, before consuming the next external spike. -/
def entryLoopOnePass {S : Type} (handle : S → ℚ → ℕ → S × ℚ) (iw : List ℚ)
    (intra : List (List ℚ)) :
    List S → List Spike → Option (List S × List (ℕ × List ℚ))
  | states, [] => some (states, [])
  | states, sp :: rest =>
    if h : sp.neuron_id < states.length ∧ sp.neuron_id < iw.length then
      let r := handle (states.get ⟨sp.neuron_id, h.1⟩) (iw.getD sp.neuron_id 0) sp.ts
      let states1 := states.set sp.neuron_id r.1
      if fires r.2 then
        let ev := (sp.ts, oneHot states.length sp.neuron_id r.2)
        let fb := (intra.getD sp.neuron_id []).map (· * r.2)
        let c := stepAll handle sp.ts states1 fb
        let evs2 := if (c.2.any fires) = true then [(sp.ts, c.2)] else []
        (entryLoopOnePass handle iw intra c.1 rest).map
          (fun p => (p.1, ev :: (evs2 ++ p.2)))
      else entryLoopOnePass handle iw intra states1 rest
    else none

/-- Modelled from the spec: `NN::solve` with the entry layer applying a single
intra-layer feedback pass per firing, as the spec's words state. -/
def nnSolveOnePass {S : Type} (handle : S → ℚ → ℕ → S × ℚ) (net : SNNet S)
    (spikes : List Spike) : Option (List Spike) :=
  match net.layers with
  | [] => none
  | l0 :: rest =>
    (entryLoopOnePass handle net.input_weights l0.intra_weights l0.neurons spikes).map
      (fun p => collect (((rest.zip net.synapses).foldl
        (fun evs lw => (layerStage handle lw.2 lw.1.intra_weights lw.1.neurons evs).2)
        p.2)))

/-- A spike sequence sorted by (non-decreasing) timestamp — the validity
condition the spec's §3 places on inputs. -/
def sortedByTs : List Spike → Bool
  | [] => true
  | [_] => true
  | a :: b :: r => decide (a.ts ≤ b.ts) && sortedByTs (b :: r)

/-! ## The sequential reference solver (`solver_v1.rs`) -/

/-- `u128::MAX`, the sentinel `to_u128_vec` writes for "did not fire". -/
def u128MAX : ℕ := 2 ^ 128 - 1

/-- `single_spike_to_vec` (`solver_v1.rs` 356-365): a `1×dim` zero vector with
a single `1` at `neuron_id`. -/
def single_spike_to_vec (neuron_id dim : ℕ) : List ℚ :=
  (List.range dim).map (fun i => if i = neuron_id then 1 else 0)

/-- `to_u128_vec` (`solver_v1.rs` 370-380): map each activation to
`val_to_set` if it is greater than `0`, and to `u128::MAX` otherwise. -/
def to_u128_vec (v : List ℚ) (val_to_set : ℕ) : List ℕ :=
  v.map (fun x => if 0 < x then val_to_set else u128MAX)

/-- `Solver::infer_spike_vec` (`solver_v1.rs` 119-212), over the list of
layers zipped with their input-weight matrices, intra matrices and current
states: per layer, compute the weighted input `current ⬝ W`, run every neuron
(collecting the raw activations), convert the *last* layer's activation vector
with `to_u128_vec`, apply exactly one intra-layer pass `activations ⬝ intra`
whose results are discarded, and hand the raw activation vector to the next
layer. -/
def inferSpikeVec {S : Type} (handle : S → ℚ → ℕ → S × ℚ) (ts : ℕ) :
    List ((List (List ℚ)) × (List (List ℚ)) × List S) → List ℚ →
    List (List S) × List ℕ
  | [], _ => ([], [])
  | (w, intra, states) :: rest, cur =>
    let r := stepAll handle ts states (rowVecMul cur w)
    let r2 := stepAll handle ts r.1 (rowVecMul r.2 intra)
    let next := inferSpikeVec handle ts rest r.2
    (r2.1 :: next.1, if rest.isEmpty then to_u128_vec r.2 ts else next.2)

/-- Zip a layer list with its input-weight matrices and current states. -/
def zipLayers {S : Type} (mats : List (List (List ℚ))) (intras : List (List (List ℚ)))
    (states : List (List S)) : List ((List (List ℚ)) × (List (List ℚ)) × List S) :=
  mats.zip (intras.zip states)

/-- The output assembly of `Solver::solve` (`solver_v1.rs` 85-91): per neuron
of the output layer, collect the timestamps of the per-spike rows that differ
from the `u128::MAX` sentinel. -/
def seqAssemble (rows : List (List ℕ)) (outLen : ℕ) : List (List ℕ) :=
  (List.range outLen).map (fun nid =>
    rows.filterMap (fun row => (row.get? nid).bind
      (fun t => if t = u128MAX then none else some t)))

/-- `Solver::solve` (`solver_v1.rs` 61-93): process the input spikes one at a
time; for each, propagate a one-hot vector through every layer with
`infer_spike_vec` (layer 0 weighted by the diagonal entry-weight matrix,
layer `i > 0` by synapse matrix `i-1`) and record the returned timestamp row;
finally return, per neuron of the last layer, the timestamps of its rows that
differ from the `u128::MAX` sentinel.  `layers[0]` / `layers.last().unwrap()`
on a layerless network panic (`none`). -/
def seqSolve {S : Type} (handle : S → ℚ → ℕ → S × ℚ) (net : SNNet S)
    (spikes : List Spike) : Option (List (List ℕ)) :=
  match net.layers with
  | [] => none
  | l0 :: _ =>
    let mats := diagMat net.input_weights :: net.synapses
    let intras := net.layers.map (·.intra_weights)
    let step := fun (acc : List (List ℕ) × List (List S)) (sp : Spike) =>
      let r := inferSpikeVec handle sp.ts (zipLayers mats intras acc.2)
        (single_spike_to_vec sp.neuron_id l0.neurons.length)
      (acc.1 ++ [r.2], r.1)
    let run := spikes.foldl step ([], net.layers.map (·.neurons))
    some (seqAssemble run.1
      (((net.layers.getLast?).map (fun l => l.neurons.length)).getD 0))

/-! ## The leaky-integrate-and-fire fixture (`model/lif.rs`) -/

/-- `LifNeuronConfig` (`lif.rs` 52-58). -/
structure LifNeuronConfig where
  v_mem_current : ℝ
  v_rest : ℝ
  v_reset : ℝ
  v_threshold : ℝ
  tau : ℝ

/-- `LifNeuron` (`lif.rs` 20-29).  The potentials are `f64` (here `ℝ`, since
the update involves `exp`), the timestamps `u128` (here `ℕ`). -/
structure LifNeuron where
  v_mem_current : ℝ
  v_mem_old : ℝ
  v_rest : ℝ
  v_reset : ℝ
  v_threshold : ℝ
  tau : ℝ
  ts_old : ℕ
  ts_curr : ℕ

/-- `LifNeuron::new` (`lif.rs` 151-166): copy the configuration parameters,
zero `v_mem_old` and both timestamps. -/
def LifNeuron.new (nc : LifNeuronConfig) : LifNeuron :=
  ⟨nc.v_mem_current, 0, nc.v_rest, nc.v_reset, nc.v_threshold, nc.tau, 0, 0⟩

/-- The elapsed-time computation of `LifNeuron::handle_spike` (`lif.rs` 115):
the unsigned 128-bit subtraction `self.ts_old - self.ts_curr`, which has a
representable result exactly when `ts_curr ≤ ts_old` (in a release build the
subtraction would wrap, in a debug build it panics; either way the value is
meaningless on underflow, so the underflow case is modelled as `none`). -/
def lifDeltaT (n : LifNeuron) : Option ℕ :=
  if n.ts_curr ≤ n.ts_old then some (n.ts_old - n.ts_curr) else none

/-- `LifNeuron::handle_spike` (`lif.rs` 112-126): with
`delta_t = ts_old - ts_curr`, set
`v_mem_current = v_rest + (v_mem_old - v_rest) * exp(delta_t / tau) + weighted_input`;
if the result exceeds `v_threshold`, reset `v_mem_current` to `v_reset` and
report a spike (`true`).  Note the exponent is `+delta_t / tau`, not negated,
and neither timestamp field is updated. -/
noncomputable def LifNeuron.handleSpike (n : LifNeuron) (weighted_input_val : ℝ) :
    Option (LifNeuron × Bool) :=
  (lifDeltaT n).map (fun d =>
    let delta_t : ℝ := (d : ℝ)
    let v := n.v_rest + (n.v_mem_old - n.v_rest) * Real.exp (delta_t / n.tau)
      + weighted_input_val
    if n.v_threshold < v then ({n with v_mem_current := n.v_reset}, true)
    else ({n with v_mem_current := v}, false))

/-- The membrane-potential formula as the spec's §4.2 words it:
`v_rest + (v_prev - v_rest) * exp(-Δt/τ) + weighted_input`, with `Δt` the
(non-negative) elapsed time since the neuron's last update. -/
noncomputable def lifSpecPotential (v_prev v_rest dt tau w : ℝ) : ℝ :=
  v_rest + (v_prev - v_rest) * Real.exp (-dt / tau) + w

/-- `LifNeuron::new_vec` (`lif.rs` 177-203): a single configuration is
replicated across all `dim` neurons; otherwise the configuration count must
equal `dim` (a mismatch panics — `none`) and each neuron is built from its own
configuration, in order. -/
def LifNeuron.new_vec (ncs : List LifNeuronConfig) (dim : ℕ) : Option (List LifNeuron) :=
  match ncs with
  | [nc] => some (List.replicate dim (LifNeuron.new nc))
  | _ => if ncs.length ≠ dim then none else some (ncs.map LifNeuron.new)

/-! ## Concrete instances used to separate the two solvers -/

/-- A model whose `handle_spike` always returns the activation `a` and keeps
its (trivial) state. -/
def constH (a : ℚ) : Unit → ℚ → ℕ → Unit × ℚ := fun _ _ _ => ((), a)

/-- A single layer with a single neuron, entry input weight `1`, and the
(necessarily zero, by the zero-diagonal invariant) `1×1` intra matrix. -/
def net1 : SNNet Unit := ⟨[1], [⟨[()], [[0]]⟩], []⟩

/-- A model that counts its invocations in its state and fires (activation
`1`) on each of its first three calls. -/
def cntH : ℕ → ℚ → ℕ → ℕ × ℚ := fun s _ _ => (s + 1, if s < 3 then 1 else 0)

/-- `net1` with the counting model's initial state. -/
def netCnt : SNNet ℕ := ⟨[1], [⟨[0], [[0]]⟩], []⟩

/-- A stateless model that fires exactly when its weighted input exceeds
`9/10` (so on every external spike through the weight-1 entry synapse, and
never on the zero-valued feedback). -/
def gateH : Unit → ℚ → ℕ → Unit × ℚ := fun _ w _ => ((), if mkRat 9 10 < w then 1 else 0)

/-- C1: on the one-neuron network with a model of constant activation `2/5`
and the single input spike `(ts 1, neuron 0)` — a timestamp-ordered input with
one spike per timestamp — the concurrent solver returns no output spike
(`2/5` is below its `0.5` firing threshold) while the sequential reference
solver reports a firing of neuron `0` at timestamp `1` (its output stage
`to_u128_vec` fires on any activation above `0.0`).  The two output spike sets
differ, violating the equivalence contract. -/
theorem solvers_disagree_on_const_activation :
    nnSolve (constH (mkRat 2 5)) net1 1 [Spike.mk 1 0] = some []
    ∧ seqSolve (constH (mkRat 2 5)) net1 [Spike.mk 1 0] = some [[1]] := by
  constructor
  · simp +decide [nnSolve, net1, constH, entryLoop, fires, collect]
  · simp +decide [seqSolve, net1, constH, inferSpikeVec, zipLayers, diagMat,
      single_spike_to_vec, to_u128_vec, stepAll, rowVecMul, addVec, u128MAX]

/-- C2 counterexample: on the one-neuron network with the counting model and
a single external spike at timestamp `0`, the entry layer of `NN::solve`
emits three events at timestamp `0` (the external firing plus *two* fired
feedback passes: each pass that fires re-enqueues another feedback vector at
the same timestamp), whereas the spec's single-feedback-pass semantics emits
only two.  The feedback is therefore not applied exactly once. -/
theorem entry_feedback_iterated_cex :
    nnSolve cntH netCnt 9 [Spike.mk 0 0] = some [Spike.mk 0 0, Spike.mk 0 0, Spike.mk 0 0]
    ∧ nnSolveOnePass cntH netCnt [Spike.mk 0 0] = some [Spike.mk 0 0, Spike.mk 0 0] := by
  constructor
  · simp +decide [nnSolve, netCnt, cntH, entryLoop, feedbackChain, stepAll,
      rowVecMul, addVec, oneHot, fires, collect]
  · simp +decide [nnSolveOnePass, netCnt, cntH, entryLoopOnePass, stepAll,
      rowVecMul, addVec, oneHot, fires, collect]

/-- C2 amended: in the entry layer, every event the feedback loop emits stays
at the timestamp of the external spike that started it, and the loop iterates:
a pass whose activations fire emits the activation vector and enqueues one
further pass (fed `output ⬝ intra`) at the same timestamp, while a pass with
no firing ends the loop — all before the next external spike is consumed. -/
theorem feedback_chain_iterates {S : Type} (handle : S → ℚ → ℕ → S × ℚ)
    (intra : List (List ℚ)) (fuel : ℕ) (states : List S) (arr : List ℚ) (ts : ℕ) :
    ((feedbackChain handle intra fuel states arr ts).2.map Prod.fst
      = List.replicate (feedbackChain handle intra fuel states arr ts).2.length ts)
    ∧ (feedbackChain handle intra (fuel + 1) states arr ts =
        if ((stepAll handle ts states arr).2.any fires) = true
        then ((feedbackChain handle intra fuel (stepAll handle ts states arr).1
                (rowVecMul (stepAll handle ts states arr).2 intra) ts).1,
              (ts, (stepAll handle ts states arr).2) ::
                (feedbackChain handle intra fuel (stepAll handle ts states arr).1
                  (rowVecMul (stepAll handle ts states arr).2 intra) ts).2)
        else ((stepAll handle ts states arr).1, []))
    ∧ ((feedbackChain handle intra fuel states arr ts).2 = [] ↔
        fuel = 0 ∨ ((stepAll handle ts states arr).2.any fires) = false) := by
  refine ⟨?_, ?_, ?_⟩
  · induction fuel generalizing states arr with
    | zero => simp [feedbackChain]
    | succ k ih =>
      simp only [feedbackChain]
      split
      all_goals simp [ih, List.replicate_succ]
  · simp only [feedbackChain]
  · cases fuel with
    | zero => simp [feedbackChain]
    | succ k =>
      simp only [feedbackChain]
      split
      all_goals simp_all

/-- C3 counterexample: the input `[(ts 5, n 0), (ts 3, n 0)]` is *not* sorted
by timestamp, yet `NN::solve` does not reject it: on the one-neuron network
with the `gateH` model it processes both spikes in arrival order and returns
their echoes — an output that is itself unsorted — instead of signalling an
error. -/
theorem solve_accepts_unsorted_input :
    sortedByTs [Spike.mk 5 0, Spike.mk 3 0] = false
    ∧ nnSolve gateH net1 3 [Spike.mk 5 0, Spike.mk 3 0]
        = some [Spike.mk 5 0, Spike.mk 3 0] := by
  constructor
  · decide
  · simp +decide [nnSolve, net1, gateH, entryLoop, feedbackChain, stepAll,
      rowVecMul, addVec, oneHot, fires, collect]

theorem stepAll_length_fst {S : Type} (handle : S → ℚ → ℕ → S × ℚ) (ts : ℕ)
    (states : List S) (arr : List ℚ) :
    (stepAll handle ts states arr).1.length = states.length := by
  induction states generalizing arr with
  | nil => simp [stepAll]
  | cons s ss ih => simp [stepAll, ih]

theorem feedbackChain_length_fst {S : Type} (handle : S → ℚ → ℕ → S × ℚ)
    (intra : List (List ℚ)) (fuel : ℕ) (states : List S) (arr : List ℚ) (ts : ℕ) :
    (feedbackChain handle intra fuel states arr ts).1.length = states.length := by
  induction fuel generalizing states arr with
  | zero => simp [feedbackChain]
  | succ k ih =>
    simp only [feedbackChain]
    split
    · simp [ih, stepAll_length_fst]
    · simp [stepAll_length_fst]

theorem entryLoop_eq_none_iff {S : Type} (handle : S → ℚ → ℕ → S × ℚ) (iw : List ℚ)
    (intra : List (List ℚ)) (fuel : ℕ) (states : List S) (spikes : List Spike) :
    entryLoop handle iw intra fuel states spikes = none ↔
      ∃ sp ∈ spikes, ¬ (sp.neuron_id < states.length ∧ sp.neuron_id < iw.length) := by
  induction spikes generalizing states with
  | nil => simp [entryLoop]
  | cons sp rest ih =>
    have key : ∀ st' : List S, st'.length = states.length →
        (entryLoop handle iw intra fuel st' rest = none ↔
          ∃ a ∈ rest, ¬ (a.neuron_id < states.length ∧ a.neuron_id < iw.length)) := by
      intro st' hlen
      rw [ih st', hlen]
    by_cases h : sp.neuron_id < states.length ∧ sp.neuron_id < iw.length
    · have hcons : (∃ a ∈ rest, ¬ (a.neuron_id < states.length ∧ a.neuron_id < iw.length)) ↔
          ∃ a ∈ sp :: rest, ¬ (a.neuron_id < states.length ∧ a.neuron_id < iw.length) := by
        constructor
        · rintro ⟨a, ha, hPa⟩
          exact ⟨a, List.mem_cons_of_mem _ ha, hPa⟩
        · rintro ⟨a, ha, hPa⟩
          rcases List.mem_cons.mp ha with rfl | ha'
          · exact absurd h hPa
          · exact ⟨a, ha', hPa⟩
      rw [entryLoop, dif_pos h]
      by_cases hf : fires (handle (states.get ⟨sp.neuron_id, h.1⟩)
          (iw.getD sp.neuron_id 0) sp.ts).2 = true
      · rw [if_pos hf, Option.map_eq_none',
          key _ (by rw [feedbackChain_length_fst, List.length_set])]
        exact hcons
      · rw [if_neg hf, key _ (List.length_set states sp.neuron_id _)]
        exact hcons
    · rw [entryLoop, dif_neg h]
      refine ⟨fun _ => ⟨sp, List.mem_cons_self sp rest, h⟩, fun _ => rfl⟩

/-- C3 amended: `NN::solve` performs no validation at its boundary.  It
returns a result (it never rejects) exactly as long as every input spike's
neuron id is in range for the entry layer and the entry input-weight vector —
regardless of whether the input is sorted.  An out-of-range neuron id does not
produce an eager rejection either: each preceding spike is processed first,
and the bad index is hit (panic, `none`) only when the entry-layer loop
reaches that spike — in the Rust code after the worker threads of the deeper
layers have already been spawned. -/
theorem solve_has_no_input_validation {S : Type} (handle : S → ℚ → ℕ → S × ℚ)
    (net : SNNet S) (fuel : ℕ) (spikes : List Spike) :
    nnSolve handle net fuel spikes = none ↔
      (net.layers = [] ∨ ∃ sp ∈ spikes,
        ¬ (sp.neuron_id < (net.layers.headD ⟨[], []⟩).neurons.length
            ∧ sp.neuron_id < net.input_weights.length)) := by
  match hL : net.layers with
  | [] => simp [nnSolve, hL]
  | l0 :: rest =>
    simp only [nnSolve, hL]
    rw [Option.map_eq_none', entryLoop_eq_none_iff]
    simp [hL]

/-- C5: the sequential solver's output stage `to_u128_vec` records a firing
(it writes the timestamp, here `7`) for the activation `3/10`, although
`3/10` does not exceed the `0.5` threshold (`fires`) that the concurrent
solver applies at the worker commit, the entry-layer emission and the final
collection: the `0.5` firing policy is not applied at the sequential-solver
output, which instead fires on any activation above `0.0`. -/
theorem seq_output_fires_below_half :
    to_u128_vec [mkRat 3 10] 7 = [7] ∧ fires (mkRat 3 10) = false := by
  constructor
  · simp +decide [to_u128_vec]
  · decide

/-- The neuron count of the last layer (the length `vec![vec![]; ...]` is
built with in `Solver::solve`). -/
def lastLayerLen {S : Type} (net : SNNet S) : ℕ :=
  ((net.layers.getLast?).map (fun l => l.neurons.length)).getD 0

theorem layerStage_nil_events {S : Type} (handle : S → ℚ → ℕ → S × ℚ)
    (inter intra : List (List ℚ)) (states : List S) :
    layerStage handle inter intra states [] = (states, []) := rfl

theorem stages_foldl_nil {S : Type} (handle : S → ℚ → ℕ → S × ℚ)
    (L : List (NLayer S × List (List ℚ))) :
    L.foldl (fun evs lw => (layerStage handle lw.2 lw.1.intra_weights lw.1.neurons evs).2)
      [] = [] := by
  induction L with
  | nil => rfl
  | cons a t ih => simpa [layerStage_nil_events] using ih

/-- C7: solving any (at least one layer deep) network on an empty input spike
sequence: the concurrent solver returns the empty output sequence for every
feedback budget, and the sequential solver returns an empty firing list for
every output neuron. -/
theorem solve_empty_input_empty_output {S : Type} (handle : S → ℚ → ℕ → S × ℚ)
    (net : SNNet S) (fuel : ℕ) (h : net.layers ≠ []) :
    nnSolve handle net fuel [] = some []
    ∧ seqSolve handle net [] = some (List.replicate (lastLayerLen net) []) := by
  obtain ⟨l0, rest, hL⟩ := List.exists_cons_of_ne_nil h
  constructor
  · simp only [nnSolve, hL, entryLoop]
    simp [stages_foldl_nil, collect]
  · simp only [seqSolve, hL, List.foldl_nil]
    simp [seqAssemble, lastLayerLen, hL, List.map_const']

/-- C9: `LifNeuron::handle_spike` is total exactly on the states whose
current-timestamp field does not exceed the last-update field: for every
state with `ts_curr > ts_old` the unsigned subtraction `ts_old - ts_curr` of
the elapsed-time computation underflows and the update has no representable
result. -/
theorem handle_spike_total_iff_no_underflow (n : LifNeuron) (w : ℝ) :
    (LifNeuron.handleSpike n w).isSome = true ↔ n.ts_curr ≤ n.ts_old := by
  by_cases h : n.ts_curr ≤ n.ts_old <;>
    simp [LifNeuron.handleSpike, lifDeltaT, h]

theorem seqAssemble_no_sentinel (rows : List (List ℕ)) (outLen : ℕ) :
    ∀ l ∈ seqAssemble rows outLen, ∀ t ∈ l, t ≠ u128MAX := by
  intro l hl t ht
  rcases List.mem_map.mp hl with ⟨nid, _, rfl⟩
  rcases List.mem_filterMap.mp ht with ⟨row, _, hrow⟩
  rcases Option.bind_eq_some.mp hrow with ⟨v, _, hite⟩
  by_cases hm : v = u128MAX
  · rw [if_pos hm] at hite
    exact absurd hite (by simp)
  · rw [if_neg hm] at hite
    rw [← Option.some_inj.mp hite]
    exact hm

/-- C10: the sequential solver uses `u128::MAX` as its internal did-not-fire
sentinel and filters it from the returned per-neuron lists, so (a) no
timestamp it returns ever equals `u128::MAX` — a firing at that timestamp is
silently omitted, since (b) at `val_to_set = u128::MAX` every `to_u128_vec`
entry collapses to the sentinel and the filter drops them all — while (c) for
a timestamp below `u128::MAX` the filter keeps exactly one entry per positive
activation, so no firing is lost. -/
theorem seq_solver_max_sentinel {S : Type} (handle : S → ℚ → ℕ → S × ℚ)
    (net : SNNet S) (spikes : List Spike) (acts : List ℚ) (ts : ℕ)
    (h : ts < u128MAX) :
    (∀ l ∈ (seqSolve handle net spikes).getD [], ∀ t ∈ l, t ≠ u128MAX)
    ∧ (to_u128_vec acts u128MAX).filter (fun t => decide (t ≠ u128MAX)) = []
    ∧ (to_u128_vec acts ts).filter (fun t => decide (t ≠ u128MAX))
        = List.replicate (acts.countP (fun a => decide (0 < a))) ts := by
  refine ⟨?_, ?_, ?_⟩
  · match hL : net.layers with
    | [] => simp [seqSolve, hL]
    | l0 :: rest =>
      simp only [seqSolve, hL, Option.getD_some]
      exact seqAssemble_no_sentinel _ _
  · induction acts with
    | nil => rfl
    | cons a t ih => simp [to_u128_vec, ih, List.filter_cons]
  · induction acts with
    | nil => rfl
    | cons a t ih =>
      by_cases ha : 0 < a
      · simp [to_u128_vec, List.filter_cons, List.countP_cons, ha, Nat.ne_of_lt h,
          List.replicate_succ] at ih ⊢
        exact ih
      · simp [to_u128_vec, List.filter_cons, List.countP_cons, ha] at ih ⊢
        exact ih

/-- A LIF state with `v_mem_old = 1`, `v_rest = 0`, `v_reset = 0`,
`v_threshold = 5`, `tau = 1`, and timestamp fields `ts_old = 1`,
`ts_curr = 0` (one unit of representable elapsed time). -/
def lifProbe : LifNeuron := ⟨1, 1, 0, 0, 5, 1, 1, 0⟩

/-- C4: on the state `lifProbe` with weighted input `0`, the fixture's
`handle_spike` sets the membrane potential to `exp 1` — it multiplies by
`exp(+Δt/τ)` (exponential growth), not by `exp(-Δt/τ)` as the spec's formula
(`lifSpecPotential`, which here gives `exp (-1)`) requires; the two results
differ. -/
theorem lif_update_diverges_from_spec_formula :
    LifNeuron.handleSpike lifProbe 0
      = some ({ lifProbe with v_mem_current := Real.exp 1 }, false)
    ∧ Real.exp 1 ≠ lifSpecPotential 1 0 1 1 0 := by
  have hlt : Real.exp 1 < 5 := lt_trans Real.exp_one_lt_d9 (by norm_num)
  constructor
  · have h5 : ¬ ((5 : ℝ) < Real.exp 1) := not_lt.mpr hlt.le
    simp [LifNeuron.handleSpike, lifDeltaT, lifProbe, h5]
  · rw [lifSpecPotential]
    have : (-1 : ℝ) / 1 = -1 := by norm_num
    rw [this]
    simp [Real.exp_eq_exp]
    norm_num

/-- C8: `LifNeuron::new_vec` builds, from a single configuration, `dim`
neurons all initialized from that configuration; from a configuration list of
length `dim`, one neuron per configuration in order; and rejects (panics —
`none`) any list whose length is neither `1` nor `dim`, at construction time,
before any solve can start. -/
theorem new_vec_config_replication (ncs : List LifNeuronConfig) (dim : ℕ) :
    if ncs.length = 1
    then LifNeuron.new_vec ncs dim
        = some (List.replicate dim (LifNeuron.new (ncs.headD ⟨0, 0, 0, 0, 0⟩)))
    else if ncs.length = dim
    then LifNeuron.new_vec ncs dim = some (ncs.map LifNeuron.new)
    else LifNeuron.new_vec ncs dim = none := by
  match ncs with
  | [] =>
    by_cases hd : (0 : ℕ) = dim
    · simp [LifNeuron.new_vec, ← hd]
    · simp [LifNeuron.new_vec, hd]
  | [nc] => simp [LifNeuron.new_vec]
  | a :: b :: t =>
    have h1 : (a :: b :: t).length ≠ 1 := by simp
    rw [if_neg h1]
    by_cases hd : (a :: b :: t).length = dim
    · rw [if_pos hd]
      show (if (a :: b :: t).length ≠ dim then none
        else some ((a :: b :: t).map LifNeuron.new)) = _
      rw [if_neg (not_not_intro hd)]
    · rw [if_neg hd]
      show (if (a :: b :: t).length ≠ dim then none
        else some ((a :: b :: t).map LifNeuron.new)) = _
      rw [if_pos hd]

/-- Witness for the empty-input theorem: the concrete one-layer network
`net1` has a nonempty layer list, and solving it on no spikes yields the
empty outputs. -/
theorem solve_empty_input_empty_output_witness :
    nnSolve (constH 0) net1 0 [] = some []
    ∧ seqSolve (constH 0) net1 [] = some (List.replicate (lastLayerLen net1) []) :=
  solve_empty_input_empty_output (constH 0) net1 0 (by decide)

/-- Witness for the sentinel theorem at the timestamp `3` (below `u128::MAX`)
and the single positive activation `1`. -/
theorem seq_solver_max_sentinel_witness :
    (∀ l ∈ (seqSolve (constH 0) net1 []).getD [], ∀ t ∈ l, t ≠ u128MAX)
    ∧ (to_u128_vec [1] u128MAX).filter (fun t => decide (t ≠ u128MAX)) = []
    ∧ (to_u128_vec [1] 3).filter (fun t => decide (t ≠ u128MAX))
        = List.replicate (([1] : List ℚ).countP (fun a => decide (0 < a))) 3 :=
  seq_solver_max_sentinel (constH 0) net1 [] [1] 3 (by decide)

end SpikingNN
